import Mathlib

/-!
Verification development for the libdns G-Core DNS provider adapter
(`provider.go`).  The Go source is shallowly embedded: Go strings are
modelled as Lean `String`s (lists of characters; the domain names and
record values involved are ASCII, where Go's byte-level operations agree
with the character-level ones), the vendor SDK client is modelled as an
explicit state (`Vendor`) with injectable faults, and each provider
operation becomes a pure state-passing function returning its result,
the vendor state after the call, the trace of vendor calls issued, and
the caller-visible contents of the (in-place mutated) input slice.
-/

namespace GcoreSpec

/-! ## Go string primitives

`provider.go` and its `libdns` helpers use `strings.TrimSuffix`,
`strings.Trim(s, ".")`, `strings.Contains`, `strings.SplitN`,
`strings.Fields` and string concatenation.  These are embedded at the
character-list level. -/

/-- Go `strings.TrimSuffix` on character lists: remove `suf` once if it is
a suffix, otherwise return the list unchanged. -/
def goTrimSuffixL (s suf : List Char) : List Char :=
  if suf.isSuffixOf s then s.take (s.length - suf.length) else s

/-- Go `strings.Trim(s, cutset)` for a one-character cutset: strip every
leading and trailing occurrence of `c`. -/
def goTrimL (s : List Char) (c : Char) : List Char :=
  ((s.dropWhile (· = c)).reverse.dropWhile (· = c)).reverse

/-- Go `strings.Contains`: `sub` occurs as a contiguous substring of `s`. -/
def containsSubL (s sub : List Char) : Bool :=
  (List.range (s.length + 1)).any (fun i => sub.isPrefixOf (s.drop i))

/-- Go `strings.Contains` on strings. -/
def goContains (s sub : String) : Bool :=
  containsSubL s.data sub.data

/-! ## `libdns` name helpers

The provider delegates name conversion to `libdns.AbsoluteName` and
`libdns.RelativeName` (github.com/libdns/libdns, the record-model
library this adapter implements; its source is a dependency of the
repository, embedded here verbatim in logic). -/

/-- `libdns.AbsoluteName name zone`: make `name` fully qualified by
appending the zone and tidying the dots.  `"."` and `"@"` denote the
zone apex. -/
def AbsoluteName (name zone : String) : String :=
  let name := if name = "." ∨ name = "@" then "" else name
  if zone = "" then ⟨goTrimL name.data '.'⟩
  else if name = "" then ⟨goTrimSuffixL zone.data ['.'] ++ ['.']⟩
  else ⟨goTrimL name.data '.' ++ ['.'] ++ goTrimSuffixL zone.data ['.'] ++ ['.']⟩

/-- `libdns.RelativeName fqdn zone`: make `fqdn` relative to `zone`,
ignoring trailing dots on both; a result that would be empty (the zone
apex) is rendered `"@"`. -/
def RelativeName (fqdn zone : String) : String :=
  let rel := goTrimSuffixL (goTrimSuffixL (goTrimSuffixL fqdn.data ['.'])
      (goTrimSuffixL zone.data ['.'])) ['.']
  if rel = [] ∧ fqdn ≠ "" ∧ zone ≠ "" then "@" else ⟨rel⟩

/-! ## The record model

`libdns.Record` values are manipulated by the provider through
`record.RR().Parse()`, which yields one of the typed record shapes.
The six shapes the provider's type switch handles are embedded as
constructors; every other outcome of `Parse` (unknown types such as
CAA or SVCB, or malformed data, on which the provider's helpers fall
through and return the record unchanged) is the `other` constructor,
carrying the raw RR view.  TTLs are modelled in whole seconds
(`int(ttl.Seconds())` in the source).  IP addresses are kept in their
string form together with their version flag. -/

inductive LRecord where
  | address (name : String) (ttl : Nat) (ip : String) (isV4 : Bool)
  | cname (name : String) (ttl : Nat) (target : String)
  | txt (name : String) (ttl : Nat) (text : String)
  | mx (name : String) (ttl : Nat) (preference : Nat) (target : String)
  | ns (name : String) (ttl : Nat) (target : String)
  | srv (name : String) (ttl : Nat) (service transport : String)
      (priority weight port : Nat) (target : String)
  | other (name type : String) (ttl : Nat) (data : String)
  deriving DecidableEq, Repr

namespace LRecord

/-- `record.RR().Name`: the owner name of the RR view.  For SRV records
`libdns` joins the service and transport labels into the name. -/
def rrName : LRecord → String
  | .address n _ _ _ => n
  | .cname n _ _ => n
  | .txt n _ _ => n
  | .mx n _ _ _ => n
  | .ns n _ _ => n
  | .srv n _ sv tr _ _ _ _ => "_" ++ sv ++ "._" ++ tr ++ "." ++ n
  | .other n _ _ _ => n

/-- `record.RR().Type`. -/
def rrType : LRecord → String
  | .address _ _ _ isV4 => if isV4 then "A" else "AAAA"
  | .cname _ _ _ => "CNAME"
  | .txt _ _ _ => "TXT"
  | .mx _ _ _ _ => "MX"
  | .ns _ _ _ => "NS"
  | .srv _ _ _ _ _ _ _ _ => "SRV"
  | .other _ ty _ _ => ty

/-- `record.RR().TTL`, in whole seconds. -/
def rrTTL : LRecord → Nat
  | .address _ t _ _ => t
  | .cname _ t _ => t
  | .txt _ t _ => t
  | .mx _ t _ _ => t
  | .ns _ t _ => t
  | .srv _ t _ _ _ _ _ _ => t
  | .other _ _ t _ => t

/-- `record.RR().Data`: the presentation form of the record data. -/
def rrData : LRecord → String
  | .address _ _ ip _ => ip
  | .cname _ _ tgt => tgt
  | .txt _ _ tx => tx
  | .mx _ _ p tgt => toString p ++ " " ++ tgt
  | .ns _ _ tgt => tgt
  | .srv _ _ _ _ p w po tgt =>
      toString p ++ " " ++ toString w ++ " " ++ toString po ++ " " ++ tgt
  | .other _ _ _ d => d

/-- The `Name` field of the typed record (for SRV, the bare owner name
without the service/transport labels). -/
def nameField : LRecord → String
  | .address n _ _ _ => n
  | .cname n _ _ => n
  | .txt n _ _ => n
  | .mx n _ _ _ => n
  | .ns n _ _ => n
  | .srv n _ _ _ _ _ _ _ => n
  | .other n _ _ _ => n

/-- Whether the record is one of the six shapes the provider's type
switch handles. -/
def isSupported : LRecord → Bool
  | .other _ _ _ _ => false
  | _ => true

end LRecord

/-- `qualityRecordNames` (sic, the source's spelling): rebuild the record
with `libdns.AbsoluteName` applied to its name.  The source first runs
`record.RR().Parse()`, which on a well-formed typed record reconstructs
the same shape (modelled as the identity on the constructors); records
parsing to a shape outside the type switch, or failing to parse, are
returned unchanged — that is the `other` branch.  Note the CNAME branch
copies `Target` unchanged. -/
def qualityRecordNames (record : LRecord) (zone : String) : LRecord :=
  match record with
  | .address n t ip v4 => .address (AbsoluteName n zone) t ip v4
  | .cname n t tgt => .cname (AbsoluteName n zone) t tgt
  | .txt n t tx => .txt (AbsoluteName n zone) t tx
  | .mx n t p tgt => .mx (AbsoluteName n zone) t p tgt
  | .ns n t tgt => .ns (AbsoluteName n zone) t tgt
  | .srv n t sv tr p w po tgt => .srv (AbsoluteName n zone) t sv tr p w po tgt
  | .other n ty t d => .other n ty t d

/-- `unqualifyRecordNames`: rebuild the record with `libdns.RelativeName`
applied to its name; same fall-through behaviour as the qualifier. -/
def unqualifyRecordNames (record : LRecord) (zone : String) : LRecord :=
  match record with
  | .address n t ip v4 => .address (RelativeName n zone) t ip v4
  | .cname n t tgt => .cname (RelativeName n zone) t tgt
  | .txt n t tx => .txt (RelativeName n zone) t tx
  | .mx n t p tgt => .mx (RelativeName n zone) t p tgt
  | .ns n t tgt => .ns (RelativeName n zone) t tgt
  | .srv n t sv tr p w po tgt => .srv (RelativeName n zone) t sv tr p w po tgt
  | .other n ty t d => .other n ty t d

/-- A name is zone-relative when it is the apex marker `"@"` or a
non-empty label sequence with no leading or trailing dot. -/
def isRelativeLabel (n : String) : Prop :=
  n = "@" ∨ (n ≠ "" ∧ n.data.head? ≠ some '.' ∧ n.data.getLast? ≠ some '.')

instance (n : String) : Decidable (isRelativeLabel n) := by
  unfold isRelativeLabel; infer_instance

/-! ### Round-trip facts about the name helpers -/

theorem goTrimSuffixL_append (a b : List Char) : goTrimSuffixL (a ++ b) b = a := by
  unfold goTrimSuffixL
  rw [if_pos (by rw [List.isSuffixOf_iff_suffix]; exact List.suffix_append a b)]
  rw [List.length_append, Nat.add_sub_cancel, List.take_left]

theorem goTrimSuffixL_self (a : List Char) : goTrimSuffixL a a = [] := by
  simpa using goTrimSuffixL_append [] a

theorem dropWhile_eq_self_of_head (s : List Char) (c : Char) (h : s.head? ≠ some c) :
    s.dropWhile (· = c) = s := by
  cases s with
  | nil => rfl
  | cons x xs =>
    rw [List.dropWhile_cons, if_neg]
    simp only [List.head?_cons, ne_eq, Option.some.injEq] at h
    simp [h]

theorem goTrimL_eq_self (s : List Char) (c : Char) (h1 : s.head? ≠ some c)
    (h2 : s.getLast? ≠ some c) : goTrimL s c = s := by
  unfold goTrimL
  rw [dropWhile_eq_self_of_head s c h1,
    dropWhile_eq_self_of_head s.reverse c (by rwa [List.head?_reverse]),
    List.reverse_reverse]

/-- Qualifying a zone-relative name against a non-empty zone and then
relativising the result recovers the original name. -/
theorem name_roundtrip (n zone : String) (hz : zone ≠ "") (hn : isRelativeLabel n) :
    RelativeName (AbsoluteName n zone) zone = n := by
  by_cases hat : n = "@"
  · subst hat
    unfold AbsoluteName RelativeName
    rw [if_pos (Or.inr rfl), if_neg hz, if_pos rfl]
    rw [show (⟨goTrimSuffixL zone.data ['.'] ++ ['.']⟩ : String).data
        = goTrimSuffixL zone.data ['.'] ++ ['.'] from rfl]
    rw [goTrimSuffixL_append, goTrimSuffixL_self]
    rw [if_pos]
    refine ⟨rfl, ?_, hz⟩
    intro hcon
    have : goTrimSuffixL zone.data ['.'] ++ ['.'] = ([] : List Char) := congrArg String.data hcon
    simp at this
  · have hn' : n ≠ "" ∧ n.data.head? ≠ some '.' ∧ n.data.getLast? ≠ some '.' := by
      rcases hn with h | h
      · exact absurd h hat
      · exact h
    obtain ⟨hne, hh, hl⟩ := hn'
    have hdot : n ≠ "." := by
      intro hcon; subst hcon; simp at hh
    have hNnil : n.data ≠ [] := by
      intro hcon
      exact hne (String.ext hcon)
    have hor : (n = "." ∨ n = "@") = False := by simp [hdot, hat]
    have habs : AbsoluteName n zone
        = ⟨n.data ++ ['.'] ++ goTrimSuffixL zone.data ['.'] ++ ['.']⟩ := by
      unfold AbsoluteName
      simp only [hor, ite_false, if_neg hz, if_neg hne,
        goTrimL_eq_self n.data '.' hh hl]
    rw [habs]
    unfold RelativeName
    rw [show (⟨n.data ++ ['.'] ++ goTrimSuffixL zone.data ['.'] ++ ['.']⟩ :
        String).data = n.data ++ ['.'] ++ goTrimSuffixL zone.data ['.'] ++ ['.']
        from rfl]
    rw [goTrimSuffixL_append, goTrimSuffixL_append, goTrimSuffixL_append]
    rw [if_neg (by rintro ⟨h, -⟩; exact hNnil h)]

/-! ## The vendor model

The G-Core SDK client (`gcoreSDK`, a black-box collaborator per the
spec) is modelled as an explicit state: an association list of RRSets
keyed by (owner name, record type), plus injectable fault oracles for
the three primitives, standing for transport and API failures other
than the structural not-found case, which the state itself produces. -/

/-- `gcoreSDK.ResourceRecord`: one entry of an RRSet. -/
structure ResourceRecord where
  content : List String
  enabled : Bool
  deriving DecidableEq, Repr

/-- `ResourceRecord.ContentToString()`: the content items joined by
single spaces. -/
def ResourceRecord.contentToString (r : ResourceRecord) : String :=
  String.intercalate " " r.content

/-- `gcoreSDK.RRSet`. -/
structure RRSet where
  type : String
  ttl : Nat
  records : List ResourceRecord
  deriving DecidableEq, Repr

/-- The error string of the vendor's not-found response, as matched by
`AppendRecords` (`strings.Contains(err.Error(), "404: record is not found")`). -/
def notFoundMsg : String := "404: record is not found"

def lookupSets : List ((String × String) × RRSet) → String → String → Option RRSet
  | [], _, _ => none
  | kv :: rest, name, ty =>
      if kv.1 = (name, ty) then some kv.2 else lookupSets rest name ty

def setSets : List ((String × String) × RRSet) → String → String → RRSet →
    List ((String × String) × RRSet)
  | [], name, ty, s => [((name, ty), s)]
  | kv :: rest, name, ty, s =>
      if kv.1 = (name, ty) then ((name, ty), s) :: rest
      else kv :: setSets rest name ty s

/-- An entry of the zone's record index (`gcoreZone.Records`). -/
structure ZoneIndexEntry where
  name : String
  type : String
  ttl : Nat
  deriving DecidableEq, Repr

/-- The vendor's visible state and fault oracles. -/
structure Vendor where
  sets : List ((String × String) × RRSet)
  zoneIndex : List ZoneIndexEntry
  zoneFault : Option String
  fetchFault : String → String → Option String
  updateFault : String → String → Option String
  deleteFault : String → String → String → Option String

/-- Outcome of `cli.RRSet(ctx, zone, name, type, -1, 0)`. -/
inductive FetchResult where
  | ok (s : RRSet)
  | err (msg : String)
  deriving DecidableEq, Repr

/-- `cli.RRSet`: an injected fault, or the stored set, or the vendor's
not-found error. -/
def Vendor.fetchRRSet (v : Vendor) (name ty : String) : FetchResult :=
  match v.fetchFault name ty with
  | some m => .err m
  | none =>
      match lookupSets v.sets name ty with
      | some s => .ok s
      | none => .err notFoundMsg

/-- `cli.UpdateRRSet`: replace the whole RRSet for (name, type). -/
def Vendor.updateRRSet (v : Vendor) (name ty : String) (s : RRSet) :
    Option String × Vendor :=
  match v.updateFault name ty with
  | some m => (some m, v)
  | none => (none, { v with sets := setSets v.sets name ty s })

/-- Modelled from the spec: the vendor SDK's single-value delete
primitive (`cli.DeleteRRSetRecord`, external to this repository) —
"delete-single-value(zone, name, type, value)" (§6), which "reports a
failure" when asked to delete "a record that does not exist" (§8);
otherwise it removes the matching value from the stored set.
`deleteFault` injects any other vendor failure. -/
def Vendor.deleteRRSetRecord (v : Vendor) (name ty value : String) :
    Option String × Vendor :=
  match v.deleteFault name ty value with
  | some m => (some m, v)
  | none =>
      match lookupSets v.sets name ty with
      | none => (some notFoundMsg, v)
      | some s =>
          if s.records.any (fun rr => rr.contentToString = value) then
            let s' : RRSet :=
              { s with
                records := s.records.filter (fun rr => ¬rr.contentToString = value) }
            (none, { v with sets := setSets v.sets name ty s' })
          else (some notFoundMsg, v)

/-- One vendor call, for the call traces of the operations. -/
inductive VCall where
  | fetch (name ty : String)
  | update (name ty : String) (s : RRSet)
  | deleteRec (name ty value : String)
  deriving DecidableEq, Repr

/-! ## The provider operations -/

/-- Result of the three record-loop operations: the Go pair
`([]libdns.Record, error)` together with the vendor state after the
call and the trace of vendor calls issued.  `callerSlice` is the
caller-visible contents of the input `records` slice after the call:
the Go code assigns `records[i] = qualityRecordNames(record, zone)`
through the shared backing array (no reallocation occurs), so the
caller's slice holds the qualified records afterwards. -/
structure OpResult where
  callerSlice : List LRecord
  result : Except String (List LRecord)
  vendor : Vendor
  trace : List VCall

/-- Outcome of one of the loops: the Go pair plus state and trace. -/
structure LoopOut where
  result : Except String (List LRecord)
  vendor : Vendor
  trace : List VCall

/-- The merge loop shared by `AppendRecords` and `SetRecords`
(provider.go): Go's `range` iterates over the slice as it was when the
loop started, and for every existing entry whose `ContentToString()`
differs from the incoming record's data a fresh enabled entry holding
that data is appended. -/
def mergeRRSet (s : RRSet) (value : String) : RRSet :=
  { s with
    records := s.records.foldl
      (fun acc rr =>
        if rr.contentToString = value then acc
        else acc ++ [ResourceRecord.mk [value] true]) s.records }

/-- The distinct record types of the input, in first-occurrence order.
Go iterates the `recordsByType` map in an unspecified order; the
embedding fixes first-occurrence order as the canonical iteration. -/
def keysInOrder (rs : List LRecord) : List String :=
  rs.foldl (fun acc r => if r.rrType ∈ acc then acc else acc ++ [r.rrType]) []

/-- The input records in the order the grouped loop of `AppendRecords`
processes them: per type (first-occurrence order of types), in input
order within each type. -/
def groupedRecords (rs : List LRecord) : List LRecord :=
  (keysInOrder rs).flatMap (fun ty => rs.filter (fun r => r.rrType = ty))

/-- The inner loop of `AppendRecords` over the (grouped) qualified
records: fetch the RRSet; on the vendor's not-found error create a set
holding exactly the record's value with the record's TTL and push it;
on any other fetch error return it; otherwise merge and push. -/
def appendLoop (rs : List LRecord) (added : List LRecord) (v : Vendor)
    (tr : List VCall) : LoopOut :=
  match rs with
  | [] => ⟨.ok added, v, tr⟩
  | record :: rest =>
      let name := record.rrName
      let ty := record.rrType
      let tr1 := tr ++ [VCall.fetch name ty]
      match v.fetchRRSet name ty with
      | .err msg =>
          if goContains msg notFoundMsg then
            let s : RRSet := ⟨ty, record.rrTTL, [⟨[record.rrData], true⟩]⟩
            match v.updateRRSet name ty s with
            | (some m, v') => ⟨.error m, v', tr1 ++ [VCall.update name ty s]⟩
            | (none, v') =>
                appendLoop rest (added ++ [record]) v' (tr1 ++ [VCall.update name ty s])
          else ⟨.error msg, v, tr1⟩
      | .ok s0 =>
          let s := mergeRRSet s0 record.rrData
          match v.updateRRSet name ty s with
          | (some m, v') => ⟨.error m, v', tr1 ++ [VCall.update name ty s]⟩
          | (none, v') =>
              appendLoop rest (added ++ [record]) v' (tr1 ++ [VCall.update name ty s])

/-- `AppendRecords`: qualify the input records in place, group them by
type, run the append loop, and return the added records with their
names made zone-relative again (on error, Go returns `nil`). -/
def AppendRecords (zone : String) (records : List LRecord) (v : Vendor) : OpResult :=
  let qualified := records.map (fun r => qualityRecordNames r zone)
  let out := appendLoop (groupedRecords qualified) [] v []
  { callerSlice := qualified
    result := out.result.map (fun added =>
      added.map (fun r => unqualifyRecordNames r zone))
    vendor := out.vendor
    trace := out.trace }

/-- The loop of `SetRecords`: always fetch first (any fetch error,
including not-found, propagates), merge, push. -/
def setLoop (rs : List LRecord) (updated : List LRecord) (v : Vendor)
    (tr : List VCall) : LoopOut :=
  match rs with
  | [] => ⟨.ok updated, v, tr⟩
  | record :: rest =>
      let name := record.rrName
      let ty := record.rrType
      let tr1 := tr ++ [VCall.fetch name ty]
      match v.fetchRRSet name ty with
      | .err msg => ⟨.error msg, v, tr1⟩
      | .ok s0 =>
          let s := mergeRRSet s0 record.rrData
          match v.updateRRSet name ty s with
          | (some m, v') => ⟨.error m, v', tr1 ++ [VCall.update name ty s]⟩
          | (none, v') =>
              setLoop rest (updated ++ [record]) v' (tr1 ++ [VCall.update name ty s])

/-- `SetRecords`: qualify in place, then fetch-merge-push per record in
input order (no grouping, no not-found special case). -/
def SetRecords (zone : String) (records : List LRecord) (v : Vendor) : OpResult :=
  let qualified := records.map (fun r => qualityRecordNames r zone)
  let out := setLoop qualified [] v []
  { callerSlice := qualified
    result := out.result.map (fun updated =>
      updated.map (fun r => unqualifyRecordNames r zone))
    vendor := out.vendor
    trace := out.trace }

/-- `fmt.Errorf("failed to delete record %v", record)`: the failing
record rendered into the error text (the exact `%v` layout is
immaterial; what matters is that the message names the record). -/
def recordRepr (r : LRecord) : String :=
  r.rrName ++ " " ++ r.rrType ++ " " ++ r.rrData

/-- The loop of `DeleteRecords`: one single-value delete per record;
any failure aborts with an error naming the record. -/
def deleteLoop (rs : List LRecord) (deleted : List LRecord) (v : Vendor)
    (tr : List VCall) : LoopOut :=
  match rs with
  | [] => ⟨.ok deleted, v, tr⟩
  | record :: rest =>
      let tr1 := tr ++ [VCall.deleteRec record.rrName record.rrType record.rrData]
      match v.deleteRRSetRecord record.rrName record.rrType record.rrData with
      | (some _, v') => ⟨.error ("failed to delete record " ++ recordRepr record), v', tr1⟩
      | (none, v') => deleteLoop rest (deleted ++ [record]) v' tr1

/-- `DeleteRecords`: qualify in place, delete per record, return the
deleted records with zone-relative names. -/
def DeleteRecords (zone : String) (records : List LRecord) (v : Vendor) : OpResult :=
  let qualified := records.map (fun r => qualityRecordNames r zone)
  let out := deleteLoop qualified [] v []
  { callerSlice := qualified
    result := out.result.map (fun deleted =>
      deleted.map (fun r => unqualifyRecordNames r zone))
    vendor := out.vendor
    trace := out.trace }

/-! ## GetRecords

`GetRecords` fetches the zone's record index, then one RRSet per index
entry, and writes each of the set's values into the same slot
`records[i]` of a pre-allocated slice (so a later value overwrites an
earlier one); finally every slot is unqualified.  The raw slot values
are `libdns.RR` literals. -/

/-- The raw `libdns.RR` view: name, type, TTL (seconds), data. -/
structure RRData where
  name : String
  type : String
  ttl : Nat
  data : String
  deriving DecidableEq, Repr

/-- Go's zero `libdns.Record` slot, left untouched when an index
entry's RRSet holds no values. -/
def zeroRRData : RRData := ⟨"", "", 0, ""⟩

/-- The inner loop of `GetRecords` for one index entry: each value of
the RRSet overwrites the slot. -/
def flattenSlot (e : ZoneIndexEntry) (s : RRSet) : RRData :=
  s.records.foldl
    (fun _ rr => ⟨e.name, e.type, e.ttl, rr.contentToString⟩) zeroRRData

def getLoop (v : Vendor) (idx : List ZoneIndexEntry) (acc : List RRData) :
    Except String (List RRData) :=
  match idx with
  | [] => .ok acc
  | e :: rest =>
      match v.fetchRRSet e.name e.type with
      | .err m => .error m
      | .ok s => getLoop v rest (acc ++ [flattenSlot e s])

/-- The fetch-and-flatten stage of `GetRecords`, before unqualifying. -/
def GetRecordsRaw (v : Vendor) : Except String (List RRData) :=
  match v.zoneFault with
  | some m => .error m
  | none => getLoop v v.zoneIndex []

/-! ### `libdns` RR parsing

`unqualifyRecordNames` runs `record.RR().Parse()` on the raw slots.
The branches of `libdns`'s `RR.Parse` used by the six supported shapes
are embedded below; every other outcome (unknown type, a shape outside
the provider's type switch such as CAA or SVCB, or malformed data) is
collapsed to `LRecord.other`, since the provider's helpers return the
record unchanged in all those cases.  Address-literal validity is
modelled by syntactic checks standing for `netip.ParseAddr` (exact on
the canonical forms used below). -/

/-- Go `strings.Split(s, sep)` for a one-character separator, on
character lists. -/
def splitOnCharL (c : Char) : List Char → List (List Char)
  | [] => [[]]
  | x :: xs =>
      let r := splitOnCharL c xs
      if x = c then [] :: r
      else
        match r with
        | y :: ys => (x :: y) :: ys
        | [] => [[x]]

/-- Go `strings.Split` on strings, one-character separator. -/
def goSplitOnChar (s : String) (c : Char) : List String :=
  (splitOnCharL c s.data).map (fun l => ⟨l⟩)

def goFields (s : String) : List String :=
  (goSplitOnChar s ' ').filter (fun x => x ≠ "")

/-- Decimal digit-string reading (Go `strconv.ParseUint` on the digit
strings that occur in record data). -/
def parseNatL (s : String) : Option Nat :=
  if s.data ≠ [] ∧ s.data.all Char.isDigit then
    some (s.data.foldl (fun a c => a * 10 + (c.toNat - 48)) 0)
  else none

def parseUint16 (s : String) : Option Nat :=
  match parseNatL s with
  | some n => if n < 65536 then some n else none
  | none => none

def isIPv4 (s : String) : Bool :=
  let parts := goSplitOnChar s '.'
  parts.length = 4 && parts.all (fun p =>
    p ≠ "" && p.data.all Char.isDigit && p.length ≤ 3 &&
    (match parseNatL p with | some n => n ≤ 255 | none => false) &&
    (p = "0" || p.data.head? ≠ some '0'))

def isHexDigitChar (c : Char) : Bool :=
  c.isDigit || ('a' ≤ c && c ≤ 'f') || ('A' ≤ c && c ≤ 'F')

def isIPv6 (s : String) : Bool :=
  s ≠ "" && s.data.contains ':' &&
    s.data.all (fun c => isHexDigitChar c || c = ':' || c = '.')

def joinWithDot : List String → String
  | [] => ""
  | [a] => a
  | a :: rest => a ++ "." ++ joinWithDot rest

/-- Go `strings.SplitN(s, ".", 3)`. -/
def splitN3 (s : String) : List String :=
  match goSplitOnChar s '.' with
  | a :: b :: rest =>
      if rest = [] then [a, b] else [a, b, joinWithDot rest]
  | parts => parts

/-- Go `strings.TrimPrefix(s, "_")`. -/
def goTrimUnderscore (s : String) : String :=
  match s.data with
  | c :: rest => if c = '_' then ⟨rest⟩ else s
  | [] => s

/-- `rr.Parse()` composed with the provider's type switch: the typed
record when `rr` parses to one of the six supported shapes, otherwise
the record unchanged (as `other`). -/
def parseRR (rr : RRData) : LRecord :=
  match rr.type with
  | "A" =>
      if isIPv4 rr.data then .address rr.name rr.ttl rr.data true
      else if isIPv6 rr.data then .address rr.name rr.ttl rr.data false
      else .other rr.name rr.type rr.ttl rr.data
  | "AAAA" =>
      if isIPv4 rr.data then .address rr.name rr.ttl rr.data true
      else if isIPv6 rr.data then .address rr.name rr.ttl rr.data false
      else .other rr.name rr.type rr.ttl rr.data
  | "CNAME" => .cname rr.name rr.ttl rr.data
  | "NS" => .ns rr.name rr.ttl rr.data
  | "TXT" => .txt rr.name rr.ttl rr.data
  | "MX" =>
      match goFields rr.data with
      | [p, tgt] =>
          match parseUint16 p with
          | some pn => .mx rr.name rr.ttl pn tgt
          | none => .other rr.name rr.type rr.ttl rr.data
      | _ => .other rr.name rr.type rr.ttl rr.data
  | "SRV" =>
      match goFields rr.data with
      | [p, w, po, tgt] =>
          match parseUint16 p, parseUint16 w, parseUint16 po with
          | some pn, some wn, some pon =>
              match splitN3 rr.name with
              | [sv, tr] =>
                  .srv "@" rr.ttl (goTrimUnderscore sv) (goTrimUnderscore tr)
                    pn wn pon tgt
              | [sv, tr, nm] =>
                  .srv nm rr.ttl (goTrimUnderscore sv) (goTrimUnderscore tr)
                    pn wn pon tgt
              | _ => .other rr.name rr.type rr.ttl rr.data
          | _, _, _ => .other rr.name rr.type rr.ttl rr.data
      | _ => .other rr.name rr.type rr.ttl rr.data
  | _ => .other rr.name rr.type rr.ttl rr.data

/-- `GetRecords`: index fetch, per-entry RRSet flattening, then the
unqualify pass over every slot. -/
def GetRecords (zone : String) (v : Vendor) : Except String (List LRecord) :=
  (GetRecordsRaw v).map (fun raw =>
    raw.map (fun rr => unqualifyRecordNames (parseRR rr) zone))

/-! ## Helper lemmas -/

theorem lookupSets_setSets_self (l : List ((String × String) × RRSet))
    (name ty : String) (s : RRSet) :
    lookupSets (setSets l name ty s) name ty = some s := by
  induction l with
  | nil => simp [setSets, lookupSets]
  | cons kv rest ih =>
      by_cases h : kv.1 = (name, ty)
      · simp [setSets, lookupSets, h]
      · simp only [setSets, if_neg h, lookupSets]
        exact ih

theorem contentToString_singleton (v : String) :
    (ResourceRecord.mk [v] true).contentToString = v := rfl

theorem mergeRRSet_of_all_eq (s : RRSet) (value : String)
    (h : ∀ rr ∈ s.records, rr.contentToString = value) :
    mergeRRSet s value = s := by
  unfold mergeRRSet
  have aux : ∀ (l : List ResourceRecord), (∀ rr ∈ l, rr.contentToString = value) →
      ∀ acc : List ResourceRecord,
      l.foldl (fun acc rr => if rr.contentToString = value then acc
        else acc ++ [ResourceRecord.mk [value] true]) acc = acc := by
    intro l
    induction l with
    | nil => intro _ acc; rfl
    | cons x xs ih =>
        intro hl acc
        have hx : x.contentToString = value := hl x (by simp)
        simp only [List.foldl_cons, if_pos hx]
        exact ih (fun rr hrr => hl rr (by simp [hrr])) acc
  rw [aux s.records h s.records]

theorem groupedRecords_singleton (r : LRecord) : groupedRecords [r] = [r] := by
  simp [groupedRecords, keysInOrder]

theorem keysInOrder_acc_prefix (rs : List LRecord) :
    ∀ acc : List String, ∃ t, rs.foldl
      (fun acc r => if r.rrType ∈ acc then acc else acc ++ [r.rrType]) acc = acc ++ t := by
  induction rs with
  | nil => intro acc; exact ⟨[], by simp⟩
  | cons x xs ih =>
      intro acc
      simp only [List.foldl_cons]
      by_cases h : x.rrType ∈ acc
      · rw [if_pos h]; exact ih acc
      · rw [if_neg h]
        obtain ⟨t, ht⟩ := ih (acc ++ [x.rrType])
        exact ⟨[x.rrType] ++ t, by rw [ht, List.append_assoc]⟩

theorem groupedRecords_cons (q : LRecord) (qs : List LRecord) :
    ∃ rest, groupedRecords (q :: qs) = q :: rest := by
  unfold groupedRecords keysInOrder
  simp only [List.foldl_cons, List.not_mem_nil, if_neg (fun h => h), List.nil_append]
  obtain ⟨t, ht⟩ := keysInOrder_acc_prefix qs [q.rrType]
  rw [ht]
  refine ⟨((q :: qs).filter (fun r => r.rrType = q.rrType)).tail ++
    t.flatMap (fun ty => (q :: qs).filter (fun r => r.rrType = ty)), ?_⟩
  rw [show ([q.rrType] ++ t) = q.rrType :: t from rfl]
  rw [List.flatMap_cons]
  have hq : (q :: qs).filter (fun r => r.rrType = q.rrType)
      = q :: qs.filter (fun r => r.rrType = q.rrType) := by
    simp [List.filter_cons]
  rw [hq]
  simp

theorem except_map_eq_error {α β γ : Type} (f : α → β) (e : Except γ α) (m : γ) :
    (e.map f = Except.error m) ↔ e = .error m := by
  cases e <;> simp [Except.map]

theorem except_map_eq_ok {α β γ : Type} (f : α → β) (e : Except γ α) (b : β) :
    (e.map f = Except.ok b) ↔ ∃ a, e = .ok a ∧ b = f a := by
  cases e <;> simp [Except.map, eq_comm]

/-! ### First-failure decompositions of the three loops

When a loop ends in an error there is a prefix it processed completely,
a failing record at which it stopped, and an untouched remainder: the
whole run coincides with running the prefix and then the failing record
alone. -/

theorem deleteLoop_error_decomp (rs : List LRecord) (acc : List LRecord)
    (v : Vendor) (tr : List VCall) (m : String)
    (h : (deleteLoop rs acc v tr).result = .error m) :
    ∃ A x B accA vA trA, rs = A ++ x :: B ∧
      deleteLoop A acc v tr = ⟨.ok accA, vA, trA⟩ ∧ accA = acc ++ A ∧
      deleteLoop rs acc v tr = deleteLoop [x] accA vA trA ∧
      (deleteLoop [x] accA vA trA).result = .error m := by
  induction rs generalizing acc v tr with
  | nil => simp [deleteLoop] at h
  | cons x xs ih =>
      rcases hx : v.deleteRRSetRecord x.rrName x.rrType x.rrData with ⟨o, v₁⟩
      cases o with
      | some mm =>
          refine ⟨[], x, xs, acc, v, tr, rfl, rfl, by simp, ?_, ?_⟩
          · simp only [deleteLoop, hx]
          · have h' := h
            simp only [deleteLoop, hx] at h' ⊢
            exact h'
      | none =>
          have hstep : deleteLoop (x :: xs) acc v tr
              = deleteLoop xs (acc ++ [x]) v₁
                  (tr ++ [VCall.deleteRec x.rrName x.rrType x.rrData]) := by
            simp only [deleteLoop, hx]
          rw [hstep] at h
          obtain ⟨A, y, B, accA, vA, trA, hAB, hok, hacc, heq, herr⟩ := ih _ _ _ h
          refine ⟨x :: A, y, B, accA, vA, trA, by rw [hAB, List.cons_append], ?_,
            by rw [hacc]; simp, ?_, herr⟩
          · simp only [deleteLoop, hx]
            exact hok
          · rw [hstep, heq]

theorem setLoop_error_decomp (rs : List LRecord) (acc : List LRecord)
    (v : Vendor) (tr : List VCall) (m : String)
    (h : (setLoop rs acc v tr).result = .error m) :
    ∃ A x B accA vA trA, rs = A ++ x :: B ∧
      setLoop A acc v tr = ⟨.ok accA, vA, trA⟩ ∧ accA = acc ++ A ∧
      setLoop rs acc v tr = setLoop [x] accA vA trA ∧
      (setLoop [x] accA vA trA).result = .error m := by
  induction rs generalizing acc v tr with
  | nil => simp [setLoop] at h
  | cons x xs ih =>
      rcases hf : v.fetchRRSet x.rrName x.rrType with s0 | msg
      · rcases hu : v.updateRRSet x.rrName x.rrType (mergeRRSet s0 x.rrData)
          with ⟨o, v₁⟩
        cases o with
        | some mm =>
            refine ⟨[], x, xs, acc, v, tr, rfl, rfl, by simp, ?_, ?_⟩
            · simp only [setLoop, hf, hu]
            · have h' := h
              simp only [setLoop, hf, hu] at h' ⊢
              exact h'
        | none =>
            have hstep : setLoop (x :: xs) acc v tr
                = setLoop xs (acc ++ [x]) v₁
                    ((tr ++ [VCall.fetch x.rrName x.rrType]) ++
                      [VCall.update x.rrName x.rrType (mergeRRSet s0 x.rrData)]) := by
              simp only [setLoop, hf, hu]
            rw [hstep] at h
            obtain ⟨A, y, B, accA, vA, trA, hAB, hok, hacc, heq, herr⟩ := ih _ _ _ h
            refine ⟨x :: A, y, B, accA, vA, trA, by rw [hAB, List.cons_append], ?_,
              by rw [hacc]; simp, ?_, herr⟩
            · simp only [setLoop, hf, hu]
              exact hok
            · rw [hstep, heq]
      · refine ⟨[], x, xs, acc, v, tr, rfl, rfl, by simp, ?_, ?_⟩
        · simp only [setLoop, hf]
        · have h' := h
          simp only [setLoop, hf] at h' ⊢
          exact h'

theorem appendLoop_error_decomp (rs : List LRecord) (acc : List LRecord)
    (v : Vendor) (tr : List VCall) (m : String)
    (h : (appendLoop rs acc v tr).result = .error m) :
    ∃ A x B accA vA trA, rs = A ++ x :: B ∧
      appendLoop A acc v tr = ⟨.ok accA, vA, trA⟩ ∧ accA = acc ++ A ∧
      appendLoop rs acc v tr = appendLoop [x] accA vA trA ∧
      (appendLoop [x] accA vA trA).result = .error m := by
  induction rs generalizing acc v tr with
  | nil => simp [appendLoop] at h
  | cons x xs ih =>
      rcases hf : v.fetchRRSet x.rrName x.rrType with s0 | msg
      · rcases hu : v.updateRRSet x.rrName x.rrType (mergeRRSet s0 x.rrData)
          with ⟨o, v₁⟩
        cases o with
        | some mm =>
            refine ⟨[], x, xs, acc, v, tr, rfl, rfl, by simp, ?_, ?_⟩
            · simp only [appendLoop, hf, hu]
            · have h' := h
              simp only [appendLoop, hf, hu] at h' ⊢
              exact h'
        | none =>
            have hstep : appendLoop (x :: xs) acc v tr
                = appendLoop xs (acc ++ [x]) v₁
                    ((tr ++ [VCall.fetch x.rrName x.rrType]) ++
                      [VCall.update x.rrName x.rrType (mergeRRSet s0 x.rrData)]) := by
              simp only [appendLoop, hf, hu]
            rw [hstep] at h
            obtain ⟨A, y, B, accA, vA, trA, hAB, hok, hacc, heq, herr⟩ := ih _ _ _ h
            refine ⟨x :: A, y, B, accA, vA, trA, by rw [hAB, List.cons_append], ?_,
              by rw [hacc]; simp, ?_, herr⟩
            · simp only [appendLoop, hf, hu]
              exact hok
            · rw [hstep, heq]
      · by_cases hc : goContains msg notFoundMsg
        · rcases hu : v.updateRRSet x.rrName x.rrType
            ⟨x.rrType, x.rrTTL, [⟨[x.rrData], true⟩]⟩ with ⟨o, v₁⟩
          cases o with
          | some mm =>
              refine ⟨[], x, xs, acc, v, tr, rfl, rfl, by simp, ?_, ?_⟩
              · simp only [appendLoop, hf, if_pos hc, hu]
              · have h' := h
                simp only [appendLoop, hf, if_pos hc, hu] at h' ⊢
                exact h'
          | none =>
              have hstep : appendLoop (x :: xs) acc v tr
                  = appendLoop xs (acc ++ [x]) v₁
                      ((tr ++ [VCall.fetch x.rrName x.rrType]) ++
                        [VCall.update x.rrName x.rrType
                          ⟨x.rrType, x.rrTTL, [⟨[x.rrData], true⟩]⟩]) := by
                simp only [appendLoop, hf, if_pos hc, hu]
              rw [hstep] at h
              obtain ⟨A, y, B, accA, vA, trA, hAB, hok, hacc, heq, herr⟩ := ih _ _ _ h
              refine ⟨x :: A, y, B, accA, vA, trA, by rw [hAB, List.cons_append], ?_,
                by rw [hacc]; simp, ?_, herr⟩
              · simp only [appendLoop, hf, if_pos hc, hu]
                exact hok
              · rw [hstep, heq]
        · refine ⟨[], x, xs, acc, v, tr, rfl, rfl, by simp, ?_, ?_⟩
          · simp only [appendLoop, hf, if_neg hc]
          · have h' := h
            simp only [appendLoop, hf, if_neg hc] at h' ⊢
            exact h'

/-! ### Single-step runs of the loops -/

theorem appendLoop_single_ok (q : LRecord) (acc : List LRecord) (v : Vendor)
    (tr : List VCall) (s : RRSet)
    (hf : v.fetchRRSet q.rrName q.rrType = .ok s)
    (hupd : v.updateFault q.rrName q.rrType = none) :
    appendLoop [q] acc v tr =
      ⟨.ok (acc ++ [q]),
        { v with sets := setSets v.sets q.rrName q.rrType (mergeRRSet s q.rrData) },
        tr ++ [VCall.fetch q.rrName q.rrType,
          VCall.update q.rrName q.rrType (mergeRRSet s q.rrData)]⟩ := by
  simp only [appendLoop, hf, Vendor.updateRRSet, hupd]
  simp [appendLoop]

theorem setLoop_single_ok (q : LRecord) (acc : List LRecord) (v : Vendor)
    (tr : List VCall) (s : RRSet)
    (hf : v.fetchRRSet q.rrName q.rrType = .ok s)
    (hupd : v.updateFault q.rrName q.rrType = none) :
    setLoop [q] acc v tr =
      ⟨.ok (acc ++ [q]),
        { v with sets := setSets v.sets q.rrName q.rrType (mergeRRSet s q.rrData) },
        tr ++ [VCall.fetch q.rrName q.rrType,
          VCall.update q.rrName q.rrType (mergeRRSet s q.rrData)]⟩ := by
  simp only [setLoop, hf, Vendor.updateRRSet, hupd]
  simp [setLoop]

/-- The create-on-not-found step of `AppendRecords`. -/
theorem appendLoop_notfound_create (q : LRecord) (rest acc : List LRecord)
    (v : Vendor) (tr : List VCall) (msg : String)
    (hf : v.fetchRRSet q.rrName q.rrType = .err msg)
    (hc : goContains msg notFoundMsg = true)
    (hupd : v.updateFault q.rrName q.rrType = none) :
    appendLoop (q :: rest) acc v tr =
      appendLoop rest (acc ++ [q])
        { v with
          sets := setSets v.sets q.rrName q.rrType ⟨q.rrType, q.rrTTL, [⟨[q.rrData], true⟩]⟩ }
        (tr ++ [VCall.fetch q.rrName q.rrType,
          VCall.update q.rrName q.rrType ⟨q.rrType, q.rrTTL, [⟨[q.rrData], true⟩]⟩]) := by
  simp only [appendLoop, hf, if_pos hc, Vendor.updateRRSet, hupd]
  simp

/-- The abort step of `AppendRecords` on a fetch error that is not the
vendor's not-found. -/
theorem appendLoop_fetch_error (q : LRecord) (rest acc : List LRecord)
    (v : Vendor) (tr : List VCall) (msg : String)
    (hf : v.fetchRRSet q.rrName q.rrType = .err msg)
    (hc : goContains msg notFoundMsg = false) :
    appendLoop (q :: rest) acc v tr =
      ⟨.error msg, v, tr ++ [VCall.fetch q.rrName q.rrType]⟩ := by
  simp only [appendLoop, hf, hc]
  simp

/-! ### Singleton-input forms of the operations -/

theorem AppendRecords_singleton (zone : String) (r : LRecord) (v : Vendor)
    (q : LRecord) (hq : q = qualityRecordNames r zone) :
    AppendRecords zone [r] v =
      { callerSlice := [q],
        result := (appendLoop [q] [] v []).result.map
          (fun added => added.map (fun x => unqualifyRecordNames x zone)),
        vendor := (appendLoop [q] [] v []).vendor,
        trace := (appendLoop [q] [] v []).trace } := by
  subst hq
  unfold AppendRecords
  simp only [List.map_cons, List.map_nil, groupedRecords_singleton]

theorem SetRecords_singleton (zone : String) (r : LRecord) (v : Vendor)
    (q : LRecord) (hq : q = qualityRecordNames r zone) :
    SetRecords zone [r] v =
      { callerSlice := [q],
        result := (setLoop [q] [] v []).result.map
          (fun updated => updated.map (fun x => unqualifyRecordNames x zone)),
        vendor := (setLoop [q] [] v []).vendor,
        trace := (setLoop [q] [] v []).trace } := by
  subst hq
  rfl

/-- The owner name a vendor call addresses. -/
def VCall.callName : VCall → String
  | .fetch n _ => n
  | .update n _ _ => n
  | .deleteRec n _ _ => n

theorem mem_groupedRecords (rs : List LRecord) (x : LRecord)
    (h : x ∈ groupedRecords rs) : x ∈ rs := by
  unfold groupedRecords at h
  obtain ⟨ty, -, hx⟩ := List.mem_flatMap.mp h
  exact (List.mem_filter.mp hx).1

/-- Every vendor call the append loop issues addresses the owner name
of one of the records given to it. -/
theorem appendLoop_trace_names (rs : List LRecord) :
    ∀ (acc : List LRecord) (v : Vendor) (tr : List VCall),
      ∀ c ∈ (appendLoop rs acc v tr).trace,
        c ∈ tr ∨ c.callName ∈ rs.map LRecord.rrName := by
  induction rs with
  | nil => intro acc v tr c hc; exact Or.inl hc
  | cons x xs ih =>
      intro acc v tr c hc
      rcases hf : v.fetchRRSet x.rrName x.rrType with s0 | msg
      · rcases hu : v.updateRRSet x.rrName x.rrType (mergeRRSet s0 x.rrData)
          with ⟨o, v₁⟩
        cases o with
        | some m =>
            rw [show appendLoop (x :: xs) acc v tr
                = ⟨.error m, v₁, (tr ++ [VCall.fetch x.rrName x.rrType]) ++
                    [VCall.update x.rrName x.rrType (mergeRRSet s0 x.rrData)]⟩
                from by simp only [appendLoop, hf, hu]] at hc
            simp only [List.mem_append, List.mem_singleton] at hc
            rcases hc with (hc | hc) | hc
            · exact Or.inl hc
            · subst hc; exact Or.inr (by simp [VCall.callName])
            · subst hc; exact Or.inr (by simp [VCall.callName])
        | none =>
            rw [show appendLoop (x :: xs) acc v tr
                = appendLoop xs (acc ++ [x]) v₁
                    ((tr ++ [VCall.fetch x.rrName x.rrType]) ++
                      [VCall.update x.rrName x.rrType (mergeRRSet s0 x.rrData)])
                from by simp only [appendLoop, hf, hu]] at hc
            rcases ih _ _ _ c hc with hc | hc
            · simp only [List.mem_append, List.mem_singleton] at hc
              rcases hc with (hc | hc) | hc
              · exact Or.inl hc
              · subst hc; exact Or.inr (by simp [VCall.callName])
              · subst hc; exact Or.inr (by simp [VCall.callName])
            · exact Or.inr (by simp only [List.map_cons, List.mem_cons]; exact Or.inr hc)
      · by_cases hcont : goContains msg notFoundMsg
        · rcases hu : v.updateRRSet x.rrName x.rrType
            ⟨x.rrType, x.rrTTL, [⟨[x.rrData], true⟩]⟩ with ⟨o, v₁⟩
          cases o with
          | some m =>
              rw [show appendLoop (x :: xs) acc v tr
                  = ⟨.error m, v₁, (tr ++ [VCall.fetch x.rrName x.rrType]) ++
                      [VCall.update x.rrName x.rrType
                        ⟨x.rrType, x.rrTTL, [⟨[x.rrData], true⟩]⟩]⟩
                  from by simp only [appendLoop, hf, if_pos hcont, hu]] at hc
              simp only [List.mem_append, List.mem_singleton] at hc
              rcases hc with (hc | hc) | hc
              · exact Or.inl hc
              · subst hc; exact Or.inr (by simp [VCall.callName])
              · subst hc; exact Or.inr (by simp [VCall.callName])
          | none =>
              rw [show appendLoop (x :: xs) acc v tr
                  = appendLoop xs (acc ++ [x]) v₁
                      ((tr ++ [VCall.fetch x.rrName x.rrType]) ++
                        [VCall.update x.rrName x.rrType
                          ⟨x.rrType, x.rrTTL, [⟨[x.rrData], true⟩]⟩])
                  from by simp only [appendLoop, hf, if_pos hcont, hu]] at hc
              rcases ih _ _ _ c hc with hc | hc
              · simp only [List.mem_append, List.mem_singleton] at hc
                rcases hc with (hc | hc) | hc
                · exact Or.inl hc
                · subst hc; exact Or.inr (by simp [VCall.callName])
                · subst hc; exact Or.inr (by simp [VCall.callName])
              · exact Or.inr (by simp only [List.map_cons, List.mem_cons]; exact Or.inr hc)
        · rw [show appendLoop (x :: xs) acc v tr
              = ⟨.error msg, v, tr ++ [VCall.fetch x.rrName x.rrType]⟩
              from by simp only [appendLoop, hf, if_neg hcont]] at hc
          simp only [List.mem_append, List.mem_singleton] at hc
          rcases hc with hc | hc
          · exact Or.inl hc
          · subst hc; exact Or.inr (by simp [VCall.callName])

/-! ## The claims -/

/-- **C1** (amended): when every entry of the fetched RRSet for the
record's (name, type) equals the record's value (in string form),
`AppendRecords` and `SetRecords` push the RRSet back without adding any
new entry for that value; in particular, appending the same record
twice against a fault-free vendor yields an RRSet still containing
exactly one entry with that value.  (As originally stated — for every
record whose value merely occurs somewhere in the fetched set — the
claim is false; see the counterexample.) -/
theorem c1_no_duplicate_when_set_uniform :
    (∀ (zone : String) (r : LRecord) (v : Vendor) (q : LRecord) (s : RRSet),
      q = qualityRecordNames r zone →
      v.fetchRRSet q.rrName q.rrType = .ok s →
      (∀ rr ∈ s.records, rr.contentToString = q.rrData) →
      v.updateFault q.rrName q.rrType = none →
      (AppendRecords zone [r] v).vendor.sets
          = setSets v.sets q.rrName q.rrType s ∧
      (SetRecords zone [r] v).vendor.sets
          = setSets v.sets q.rrName q.rrType s ∧
      (AppendRecords zone [r] v).result = .ok [unqualifyRecordNames q zone] ∧
      (SetRecords zone [r] v).result = .ok [unqualifyRecordNames q zone]) ∧
    (∀ (zone : String) (r : LRecord) (v : Vendor) (q : LRecord),
      q = qualityRecordNames r zone →
      v.fetchFault q.rrName q.rrType = none →
      v.updateFault q.rrName q.rrType = none →
      lookupSets v.sets q.rrName q.rrType = none →
      ∃ s, lookupSets (AppendRecords zone [r]
              (AppendRecords zone [r] v).vendor).vendor.sets q.rrName q.rrType
            = some s ∧
        s.records.countP (fun rr => rr.contentToString = q.rrData) = 1) := by
  constructor
  · intro zone r v q s hq hf hall hupd
    have hmerge : mergeRRSet s q.rrData = s := mergeRRSet_of_all_eq s _ hall
    have happ := appendLoop_single_ok q [] v [] s hf hupd
    have hset := setLoop_single_ok q [] v [] s hf hupd
    rw [hmerge] at happ hset
    rw [AppendRecords_singleton zone r v q hq, SetRecords_singleton zone r v q hq,
      happ, hset]
    exact ⟨rfl, rfl, rfl, rfl⟩
  · intro zone r v q hq hff hupd hlook
    have hfetch1 : v.fetchRRSet q.rrName q.rrType = .err notFoundMsg := by
      unfold Vendor.fetchRRSet
      rw [hff, hlook]
    have hc : goContains notFoundMsg notFoundMsg = true := by rfl
    have hcreate := appendLoop_notfound_create q [] [] v [] notFoundMsg hfetch1 hc hupd
    set s1 : RRSet := ⟨q.rrType, q.rrTTL, [⟨[q.rrData], true⟩]⟩ with hs1
    set v1 : Vendor :=
      { v with sets := setSets v.sets q.rrName q.rrType s1 } with hv1
    have h1 : (AppendRecords zone [r] v).vendor = v1 := by
      rw [AppendRecords_singleton zone r v q hq, hcreate]
      rfl
    have hall1 : ∀ rr ∈ s1.records, rr.contentToString = q.rrData := by
      intro rr hrr
      rw [hs1] at hrr
      simp only [List.mem_singleton] at hrr
      rw [hrr]
      exact contentToString_singleton _
    have hfetch2 : v1.fetchRRSet q.rrName q.rrType = .ok s1 := by
      unfold Vendor.fetchRRSet
      rw [show v1.fetchFault = v.fetchFault from rfl, hff,
        show v1.sets = setSets v.sets q.rrName q.rrType s1 from rfl,
        lookupSets_setSets_self]
    have hupd1 : v1.updateFault q.rrName q.rrType = none := hupd
    have happ2 := appendLoop_single_ok q [] v1 [] s1 hfetch2 hupd1
    rw [mergeRRSet_of_all_eq s1 _ hall1] at happ2
    refine ⟨s1, ?_, ?_⟩
    · rw [h1, AppendRecords_singleton zone r v1 q hq, happ2]
      exact lookupSets_setSets_self _ _ _ _
    · rw [hs1]
      show ([(⟨[q.rrData], true⟩ : ResourceRecord)].countP
        (fun rr => rr.contentToString = q.rrData)) = 1
      rw [List.countP_cons]
      simp [contentToString_singleton]

/-- Counterexample to C1 as stated: the RRSet for
(`www.example.com.`, TXT) already contains the value `"v"` (alongside
`"a"`), yet appending a record with value `"v"` pushes back a set with
a second `"v"` entry. -/
theorem c1_counterexample :
    (AppendRecords "example.com." [.txt "www" 300 "v"]
        ⟨[(("www.example.com.", "TXT"),
            ⟨"TXT", 300, [⟨["a"], true⟩, ⟨["v"], true⟩]⟩)], [], none,
          fun _ _ => none, fun _ _ => none, fun _ _ _ => none⟩).vendor.sets
      = [(("www.example.com.", "TXT"),
          ⟨"TXT", 300, [⟨["a"], true⟩, ⟨["v"], true⟩, ⟨["v"], true⟩]⟩)] ∧
    (⟨"TXT", 300, [⟨["a"], true⟩, ⟨["v"], true⟩, ⟨["v"], true⟩]⟩ :
        RRSet).records.countP (fun rr => rr.contentToString = "v") = 2 := by
  constructor
  · rfl
  · rfl

/-- Witness for C1: both parts applied at concrete inputs. -/
theorem c1_witness :
    ((AppendRecords "example.com." [.txt "www" 300 "v"]
        ⟨[(("www.example.com.", "TXT"), ⟨"TXT", 300, [⟨["v"], true⟩]⟩)], [],
          none, fun _ _ => none, fun _ _ => none, fun _ _ _ => none⟩).vendor.sets
      = [(("www.example.com.", "TXT"), ⟨"TXT", 300, [⟨["v"], true⟩]⟩)]) ∧
    (∃ s, lookupSets (AppendRecords "example.com." [.txt "www" 300 "v"]
          (AppendRecords "example.com." [.txt "www" 300 "v"]
            ⟨[], [], none, fun _ _ => none, fun _ _ => none,
              fun _ _ _ => none⟩).vendor).vendor.sets
          "www.example.com." "TXT" = some s ∧
      s.records.countP (fun rr => rr.contentToString = "v") = 1) := by
  constructor
  · exact (c1_no_duplicate_when_set_uniform.1 "example.com." (.txt "www" 300 "v")
      ⟨[(("www.example.com.", "TXT"), ⟨"TXT", 300, [⟨["v"], true⟩]⟩)], [],
        none, fun _ _ => none, fun _ _ => none, fun _ _ _ => none⟩
      (qualityRecordNames (.txt "www" 300 "v") "example.com.")
      ⟨"TXT", 300, [⟨["v"], true⟩]⟩ rfl (by decide) (by decide) rfl).1
  · exact c1_no_duplicate_when_set_uniform.2 "example.com." (.txt "www" 300 "v")
      ⟨[], [], none, fun _ _ => none, fun _ _ => none, fun _ _ _ => none⟩
      (qualityRecordNames (.txt "www" 300 "v") "example.com.") rfl rfl rfl rfl

/-- Characterisation of a successful `getLoop` run: one slot per index
entry, each the flattening of the fetched RRSet. -/
theorem getLoop_ok_char (v : Vendor) (idx : List ZoneIndexEntry) :
    ∀ (acc out : List RRData), getLoop v idx acc = .ok out →
    out = acc ++ idx.map (fun e =>
      match v.fetchRRSet e.name e.type with
      | .ok s => flattenSlot e s
      | .err _ => zeroRRData) ∧
    ∀ e ∈ idx, ∃ s, v.fetchRRSet e.name e.type = .ok s := by
  induction idx with
  | nil =>
      intro acc out h
      simp only [getLoop, Except.ok.injEq] at h
      subst h
      simp
  | cons e rest ih =>
      intro acc out h
      rcases hf : v.fetchRRSet e.name e.type with s | m
      · rw [getLoop, hf] at h
        obtain ⟨h1, h2⟩ := ih _ _ h
        constructor
        · rw [h1, List.map_cons, hf, List.append_assoc]
          rfl
        · intro e' he'
          rcases List.mem_cons.mp he' with he' | he'
          · exact ⟨s, by rw [he', hf]⟩
          · exact h2 e' he'
      · rw [getLoop, hf] at h
        cases h

/-- The fold of the inner loop of `GetRecords` keeps only the last
value of a non-empty RRSet: each later value overwrites the slot. -/
theorem flattenSlot_last (e : ZoneIndexEntry) (s : RRSet) (rr : ResourceRecord)
    (h : s.records.getLast? = some rr) :
    flattenSlot e s = ⟨e.name, e.type, e.ttl, rr.contentToString⟩ := by
  unfold flattenSlot
  have aux : ∀ (l : List ResourceRecord) (init : RRData) (x : ResourceRecord),
      l.getLast? = some x →
      l.foldl (fun _ rr => (⟨e.name, e.type, e.ttl, rr.contentToString⟩ : RRData))
        init = ⟨e.name, e.type, e.ttl, x.contentToString⟩ := by
    intro l
    induction l with
    | nil => intro init x hx; simp at hx
    | cons y ys ih =>
        intro init x hx
        cases ys with
        | nil =>
            simp only [List.getLast?_singleton, Option.some.injEq] at hx
            subst hx
            rfl
        | cons z zs =>
            rw [List.foldl_cons]
            exact ih _ x (by rwa [List.getLast?_cons_cons] at hx)
  exact aux s.records zeroRRData rr h

/-- **C4**: `GetRecords` returns exactly one abstract record per entry
of the zone's record index, each slot being the flattening of that
entry's fetched RRSet; and the flattening of a multi-value RRSet keeps
only its last value (each later value overwrites the slot) instead of
fanning out. -/
theorem c4_getrecords_one_record_per_index_entry :
    (∀ (zone : String) (v : Vendor) (l : List LRecord),
      GetRecords zone v = .ok l →
      ∃ raw, GetRecordsRaw v = .ok raw ∧
        l = raw.map (fun rr => unqualifyRecordNames (parseRR rr) zone) ∧
        l.length = v.zoneIndex.length ∧
        ∀ (i : Nat) (e : ZoneIndexEntry), v.zoneIndex[i]? = some e →
          ∃ s, v.fetchRRSet e.name e.type = .ok s ∧
            raw[i]? = some (flattenSlot e s)) ∧
    (∀ (e : ZoneIndexEntry) (s : RRSet) (rr : ResourceRecord),
      s.records.getLast? = some rr →
      flattenSlot e s = ⟨e.name, e.type, e.ttl, rr.contentToString⟩) := by
  constructor
  · intro zone v l h
    unfold GetRecords at h
    obtain ⟨raw, hraw, hl⟩ := (except_map_eq_ok _ _ _).mp h
    refine ⟨raw, hraw, hl, ?_, ?_⟩
    · rcases hz : v.zoneFault with - | m
      · rw [GetRecordsRaw, hz] at hraw
        obtain ⟨h1, -⟩ := getLoop_ok_char v v.zoneIndex [] raw hraw
        rw [hl, List.length_map, h1]
        simp
      · rw [GetRecordsRaw, hz] at hraw
        cases hraw
    · intro i e hie
      rcases hz : v.zoneFault with - | m
      · rw [GetRecordsRaw, hz] at hraw
        obtain ⟨h1, h2⟩ := getLoop_ok_char v v.zoneIndex [] raw hraw
        obtain ⟨s, hs⟩ := h2 e (List.getElem?_mem hie)
        refine ⟨s, hs, ?_⟩
        rw [h1]
        simp only [List.nil_append, List.getElem?_map, hie, Option.map_some']
        rw [hs]
      · rw [GetRecordsRaw, hz] at hraw
        cases hraw
  · exact flattenSlot_last

/-- Witness for C4: a zone index with one A entry whose RRSet holds two
values; the call returns one record holding only the last value. -/
theorem c4_witness :
    (∃ raw, GetRecordsRaw
        ⟨[(("www.example.com.", "A"),
            ⟨"A", 300, [⟨["1.2.3.4"], true⟩, ⟨["5.6.7.8"], true⟩]⟩)],
          [⟨"www.example.com.", "A", 300⟩], none, fun _ _ => none,
          fun _ _ => none, fun _ _ _ => none⟩ = .ok raw ∧
      [LRecord.address "www" 300 "5.6.7.8" true]
        = raw.map (fun rr => unqualifyRecordNames (parseRR rr) "example.com.") ∧
      [LRecord.address "www" 300 "5.6.7.8" true].length
        = (⟨[(("www.example.com.", "A"),
            ⟨"A", 300, [⟨["1.2.3.4"], true⟩, ⟨["5.6.7.8"], true⟩]⟩)],
          [⟨"www.example.com.", "A", 300⟩], none, fun _ _ => none,
          fun _ _ => none, fun _ _ _ => none⟩ : Vendor).zoneIndex.length ∧
      ∀ (i : Nat) (e : ZoneIndexEntry),
        (⟨[(("www.example.com.", "A"),
            ⟨"A", 300, [⟨["1.2.3.4"], true⟩, ⟨["5.6.7.8"], true⟩]⟩)],
          [⟨"www.example.com.", "A", 300⟩], none, fun _ _ => none,
          fun _ _ => none, fun _ _ _ => none⟩ : Vendor).zoneIndex[i]? = some e →
        ∃ s, Vendor.fetchRRSet
            ⟨[(("www.example.com.", "A"),
                ⟨"A", 300, [⟨["1.2.3.4"], true⟩, ⟨["5.6.7.8"], true⟩]⟩)],
              [⟨"www.example.com.", "A", 300⟩], none, fun _ _ => none,
              fun _ _ => none, fun _ _ _ => none⟩ e.name e.type = .ok s ∧
          raw[i]? = some (flattenSlot e s)) ∧
    flattenSlot ⟨"www.example.com.", "A", 300⟩
        ⟨"A", 300, [⟨["1.2.3.4"], true⟩, ⟨["5.6.7.8"], true⟩]⟩
      = ⟨"www.example.com.", "A", 300, "5.6.7.8"⟩ :=
  ⟨c4_getrecords_one_record_per_index_entry.1 "example.com." _
      [LRecord.address "www" 300 "5.6.7.8" true] (by rfl),
   c4_getrecords_one_record_per_index_entry.2 _ _ ⟨["5.6.7.8"], true⟩ (by rfl)⟩

/-- **C2**: for every supported record shape (address, CNAME, TXT, MX,
NS, SRV) and every zone-relative record name, qualifying the record
against a zone with `qualityRecordNames` and then unqualifying the
result against the same zone with `unqualifyRecordNames` returns a
record with the original name (indeed the original record). -/
theorem c2_qualify_unqualify_roundtrip (zone : String) (r : LRecord)
    (hz : zone ≠ "") (hs : r.isSupported = true)
    (hn : isRelativeLabel r.nameField) :
    unqualifyRecordNames (qualityRecordNames r zone) zone = r := by
  cases r with
  | address n t ip v4 =>
      simp only [qualityRecordNames, unqualifyRecordNames]
      rw [name_roundtrip n zone hz hn]
  | cname n t tgt =>
      simp only [qualityRecordNames, unqualifyRecordNames]
      rw [name_roundtrip n zone hz hn]
  | txt n t tx =>
      simp only [qualityRecordNames, unqualifyRecordNames]
      rw [name_roundtrip n zone hz hn]
  | mx n t p tgt =>
      simp only [qualityRecordNames, unqualifyRecordNames]
      rw [name_roundtrip n zone hz hn]
  | ns n t tgt =>
      simp only [qualityRecordNames, unqualifyRecordNames]
      rw [name_roundtrip n zone hz hn]
  | srv n t sv tr p w po tgt =>
      simp only [qualityRecordNames, unqualifyRecordNames]
      rw [name_roundtrip n zone hz hn]
  | other n ty t d => simp [LRecord.isSupported] at hs

/-- **C5** (amended): `AppendRecords` rewrites every input record in
place through `qualityRecordNames` before any vendor call — every
vendor call it issues addresses the owner name of a qualified record,
and for records of a supported shape the name becomes
`AbsoluteName name zone` — but CNAME target values are passed through
unchanged (they are not fully-qualified; the original claim's CNAME
clause is refuted by the counterexample). -/
theorem c5_append_qualifies_names_but_not_cname_targets :
    (∀ (zone : String) (records : List LRecord) (v : Vendor),
      (AppendRecords zone records v).callerSlice
          = records.map (fun r => qualityRecordNames r zone) ∧
      ∀ c ∈ (AppendRecords zone records v).trace,
        c.callName ∈ (records.map (fun r => qualityRecordNames r zone)).map
          LRecord.rrName) ∧
    (∀ (zone : String) (r : LRecord), r.isSupported = true →
      (qualityRecordNames r zone).nameField = AbsoluteName r.nameField zone) ∧
    (∀ (zone n target : String) (ttl : Nat),
      qualityRecordNames (.cname n ttl target) zone
        = .cname (AbsoluteName n zone) ttl target) := by
  refine ⟨?_, ?_, ?_⟩
  · intro zone records v
    refine ⟨rfl, ?_⟩
    intro c hc
    have hc' : c ∈ (appendLoop
        (groupedRecords (records.map (fun r => qualityRecordNames r zone)))
        [] v []).trace := hc
    rcases appendLoop_trace_names _ _ _ _ c hc' with h | h
    · cases h
    · obtain ⟨q, hq, hname⟩ := List.mem_map.mp h
      exact List.mem_map.mpr ⟨q, mem_groupedRecords _ _ hq, hname⟩
  · intro zone r hs
    cases r <;> first
      | rfl
      | simp [LRecord.isSupported] at hs
  · intro zone n target ttl
    rfl

/-- Counterexample to C5 as stated: appending a CNAME whose target is
the relative name `"target"` pushes an RRSet whose value is still
`"target"`, with no trailing dot — the CNAME target was not
fully-qualified. -/
theorem c5_counterexample :
    (AppendRecords "example.com." [.cname "www" 300 "target"]
        ⟨[], [], none, fun _ _ => none, fun _ _ => none,
          fun _ _ _ => none⟩).vendor.sets
      = [(("www.example.com.", "CNAME"),
          ⟨"CNAME", 300, [⟨["target"], true⟩]⟩)] ∧
    ("target".data.getLast? = some '.') = False := by
  constructor
  · rfl
  · simp

/-- Witness for C5: the amended statement applied at a concrete CNAME
append. -/
theorem c5_witness :
    ((AppendRecords "example.com." [.cname "www" 300 "target"]
        ⟨[], [], none, fun _ _ => none, fun _ _ => none,
          fun _ _ _ => none⟩).callerSlice
        = [qualityRecordNames (.cname "www" 300 "target") "example.com."] ∧
      ∀ c ∈ (AppendRecords "example.com." [.cname "www" 300 "target"]
          ⟨[], [], none, fun _ _ => none, fun _ _ => none,
            fun _ _ _ => none⟩).trace,
        c.callName ∈ ([.cname "www" 300 "target"].map
          (fun r => qualityRecordNames r "example.com.")).map LRecord.rrName) ∧
    (qualityRecordNames (.cname "www" 300 "target") "example.com.").nameField
        = AbsoluteName "www" "example.com." ∧
    qualityRecordNames (.cname "www" 300 "target") "example.com."
        = .cname (AbsoluteName "www" "example.com.") 300 "target" :=
  ⟨c5_append_qualifies_names_but_not_cname_targets.1 "example.com."
      [.cname "www" 300 "target"] _,
   c5_append_qualifies_names_but_not_cname_targets.2.1 "example.com."
      (.cname "www" 300 "target") rfl,
   c5_append_qualifies_names_but_not_cname_targets.2.2 "example.com."
      "www" "target" 300⟩

/-- When the fetch succeeds, one step of the Set loop is literally one
step of the Append loop (same merge, same push, same bookkeeping). -/
theorem setLoop_eq_appendLoop_single (q : LRecord) (acc : List LRecord)
    (v : Vendor) (tr : List VCall) (s : RRSet)
    (hf : v.fetchRRSet q.rrName q.rrType = .ok s) :
    setLoop [q] acc v tr = appendLoop [q] acc v tr := by
  rcases hu : v.updateRRSet q.rrName q.rrType (mergeRRSet s q.rrData) with ⟨o, v₁⟩
  cases o with
  | some m => simp only [setLoop, appendLoop, hf, hu]
  | none => simp only [setLoop, appendLoop, hf, hu]

/-- **C6**: per input record, `SetRecords` performs the identical
qualify-then-fetch-merge-push computation as `AppendRecords`' existing-
RRSet path — on a record whose RRSet fetch succeeds the two operations
coincide entirely — differing only in that every fetch error, the
vendor's not-found included, propagates to the caller unchanged. -/
theorem c6_set_refines_append_existing_path :
    (∀ (zone : String) (r : LRecord) (v : Vendor) (q : LRecord) (s : RRSet),
      q = qualityRecordNames r zone →
      v.fetchRRSet q.rrName q.rrType = .ok s →
      SetRecords zone [r] v = AppendRecords zone [r] v) ∧
    (∀ (q : LRecord) (acc : List LRecord) (v : Vendor) (tr : List VCall)
        (s : RRSet),
      v.fetchRRSet q.rrName q.rrType = .ok s →
      setLoop [q] acc v tr = appendLoop [q] acc v tr) ∧
    (∀ (zone : String) (r : LRecord) (rest : List LRecord) (v : Vendor)
        (q : LRecord) (msg : String),
      q = qualityRecordNames r zone →
      v.fetchRRSet q.rrName q.rrType = .err msg →
      (SetRecords zone (r :: rest) v).result = .error msg ∧
      (SetRecords zone (r :: rest) v).trace = [VCall.fetch q.rrName q.rrType]) ∧
    (∀ (zone : String) (records : List LRecord) (v : Vendor),
      (SetRecords zone records v).callerSlice
        = (AppendRecords zone records v).callerSlice) := by
  refine ⟨?_, ?_, ?_, ?_⟩
  · intro zone r v q s hq hf
    rw [SetRecords_singleton zone r v q hq, AppendRecords_singleton zone r v q hq,
      setLoop_eq_appendLoop_single q [] v [] s hf]
  · intro q acc v tr s hf
    exact setLoop_eq_appendLoop_single q acc v tr s hf
  · intro zone r rest v q msg hq hf
    unfold SetRecords
    dsimp only
    rw [show (r :: rest).map (fun x => qualityRecordNames x zone)
        = q :: rest.map (fun x => qualityRecordNames x zone) from by
      rw [List.map_cons, hq]]
    rw [show setLoop (q :: rest.map (fun x => qualityRecordNames x zone)) [] v []
        = ⟨.error msg, v, [VCall.fetch q.rrName q.rrType]⟩ from by
      simp [setLoop, hf]]
    exact ⟨rfl, rfl⟩
  · intro zone records v
    rfl

/-- Witness for C6: on a record whose RRSet exists the two operations
agree; on an absent RRSet `SetRecords` propagates the vendor's
not-found error instead of creating. -/
theorem c6_witness :
    (SetRecords "example.com." [.txt "www" 300 "v"]
        ⟨[(("www.example.com.", "TXT"), ⟨"TXT", 300, [⟨["v"], true⟩]⟩)], [],
          none, fun _ _ => none, fun _ _ => none, fun _ _ _ => none⟩
      = AppendRecords "example.com." [.txt "www" 300 "v"]
        ⟨[(("www.example.com.", "TXT"), ⟨"TXT", 300, [⟨["v"], true⟩]⟩)], [],
          none, fun _ _ => none, fun _ _ => none, fun _ _ _ => none⟩) ∧
    ((SetRecords "example.com." [.txt "www" 300 "v"]
        ⟨[], [], none, fun _ _ => none, fun _ _ => none,
          fun _ _ _ => none⟩).result = .error notFoundMsg) := by
  constructor
  · exact c6_set_refines_append_existing_path.1 "example.com."
      (.txt "www" 300 "v") _
      (qualityRecordNames (.txt "www" 300 "v") "example.com.")
      ⟨"TXT", 300, [⟨["v"], true⟩]⟩ rfl (by rfl)
  · exact (c6_set_refines_append_existing_path.2.2.1 "example.com."
      (.txt "www" 300 "v") [] ⟨[], [], none, fun _ _ => none,
        fun _ _ => none, fun _ _ _ => none⟩
      (qualityRecordNames (.txt "www" 300 "v") "example.com.") notFoundMsg
      rfl (by rfl)).1

/-- **C3**: when the RRSet fetch in `AppendRecords` fails with the
vendor's not-found error, `AppendRecords` creates and pushes a new
RRSet containing exactly one enabled entry holding the record's value,
with the set's TTL taken from the record, and counts that record as
added; any fetch error whose text does not contain the vendor's
not-found message aborts the whole call with that error. -/
theorem c3_append_notfound_creates_other_errors_abort :
    (∀ (zone : String) (r : LRecord) (v : Vendor) (q : LRecord) (msg : String),
      q = qualityRecordNames r zone →
      v.fetchRRSet q.rrName q.rrType = .err msg →
      goContains msg notFoundMsg = true →
      v.updateFault q.rrName q.rrType = none →
      (AppendRecords zone [r] v).result = .ok [unqualifyRecordNames q zone] ∧
      (AppendRecords zone [r] v).vendor.sets
          = setSets v.sets q.rrName q.rrType
              ⟨q.rrType, q.rrTTL, [⟨[q.rrData], true⟩]⟩) ∧
    (∀ (zone : String) (r : LRecord) (rest : List LRecord) (v : Vendor)
        (q : LRecord) (msg : String),
      q = qualityRecordNames r zone →
      v.fetchRRSet q.rrName q.rrType = .err msg →
      goContains msg notFoundMsg = false →
      (AppendRecords zone (r :: rest) v).result = .error msg ∧
      (AppendRecords zone (r :: rest) v).trace
          = [VCall.fetch q.rrName q.rrType]) := by
  constructor
  · intro zone r v q msg hq hf hc hupd
    have hcreate := appendLoop_notfound_create q [] [] v [] msg hf hc hupd
    rw [AppendRecords_singleton zone r v q hq, hcreate]
    exact ⟨rfl, rfl⟩
  · intro zone r rest v q msg hq hf hc
    obtain ⟨rest', hg⟩ :=
      groupedRecords_cons q (rest.map (fun x => qualityRecordNames x zone))
    have hmap : (r :: rest).map (fun x => qualityRecordNames x zone)
        = q :: rest.map (fun x => qualityRecordNames x zone) := by
      rw [List.map_cons, hq]
    unfold AppendRecords
    dsimp only
    rw [hmap, hg, appendLoop_fetch_error q rest' [] v [] msg hf hc]
    exact ⟨rfl, rfl⟩

/-- Witness for C3: the create path on an empty vendor (whose fetch
yields the not-found error) and the abort path on an injected
transport fault. -/
theorem c3_witness :
    ((AppendRecords "example.com." [.txt "www" 300 "v"]
        ⟨[], [], none, fun _ _ => none, fun _ _ => none,
          fun _ _ _ => none⟩).result
      = .ok [unqualifyRecordNames
          (qualityRecordNames (.txt "www" 300 "v") "example.com.")
          "example.com."]) ∧
    ((AppendRecords "example.com."
        [.txt "www" 300 "v", .txt "other" 60 "w"]
        ⟨[], [], none, fun _ _ => some "500: boom", fun _ _ => none,
          fun _ _ _ => none⟩).result = .error "500: boom") := by
  constructor
  · exact (c3_append_notfound_creates_other_errors_abort.1 "example.com."
      (.txt "www" 300 "v")
      ⟨[], [], none, fun _ _ => none, fun _ _ => none, fun _ _ _ => none⟩
      (qualityRecordNames (.txt "www" 300 "v") "example.com.") notFoundMsg
      rfl rfl rfl rfl).1
  · exact (c3_append_notfound_creates_other_errors_abort.2 "example.com."
      (.txt "www" 300 "v") [.txt "other" 60 "w"]
      ⟨[], [], none, fun _ _ => some "500: boom", fun _ _ => none,
        fun _ _ _ => none⟩
      (qualityRecordNames (.txt "www" 300 "v") "example.com.") "500: boom"
      rfl rfl (by rfl)).1

/-- A successful append loop adds every record given to it, in order. -/
theorem appendLoop_ok_out (rs : List LRecord) :
    ∀ (acc : List LRecord) (v : Vendor) (tr : List VCall) (out : List LRecord)
      (v' : Vendor) (tr' : List VCall),
      appendLoop rs acc v tr = ⟨.ok out, v', tr'⟩ → out = acc ++ rs := by
  induction rs with
  | nil =>
      intro acc v tr out v' tr' h
      simp only [appendLoop, LoopOut.mk.injEq, Except.ok.injEq] at h
      rw [← h.1]
      simp
  | cons x xs ih =>
      intro acc v tr out v' tr' h
      rcases hf : v.fetchRRSet x.rrName x.rrType with s0 | msg
      · rcases hu : v.updateRRSet x.rrName x.rrType (mergeRRSet s0 x.rrData)
          with ⟨o, v₁⟩
        cases o with
        | some m =>
            simp only [appendLoop, hf, hu, LoopOut.mk.injEq] at h
            exact absurd h.1 (by simp)
        | none =>
            rw [show appendLoop (x :: xs) acc v tr
                = appendLoop xs (acc ++ [x]) v₁
                    ((tr ++ [VCall.fetch x.rrName x.rrType]) ++
                      [VCall.update x.rrName x.rrType (mergeRRSet s0 x.rrData)])
                from by simp only [appendLoop, hf, hu]] at h
            rw [ih _ _ _ _ _ _ h]
            simp
      · by_cases hc : goContains msg notFoundMsg
        · rcases hu : v.updateRRSet x.rrName x.rrType
            ⟨x.rrType, x.rrTTL, [⟨[x.rrData], true⟩]⟩ with ⟨o, v₁⟩
          cases o with
          | some m =>
              simp only [appendLoop, hf, if_pos hc, hu, LoopOut.mk.injEq] at h
              exact absurd h.1 (by simp)
          | none =>
              rw [show appendLoop (x :: xs) acc v tr
                  = appendLoop xs (acc ++ [x]) v₁
                      ((tr ++ [VCall.fetch x.rrName x.rrType]) ++
                        [VCall.update x.rrName x.rrType
                          ⟨x.rrType, x.rrTTL, [⟨[x.rrData], true⟩]⟩])
                  from by simp only [appendLoop, hf, if_pos hc, hu]] at h
              rw [ih _ _ _ _ _ _ h]
              simp
        · simp only [appendLoop, hf, if_neg hc, LoopOut.mk.injEq] at h
          exact absurd h.1 (by simp)

/-- **C7** (amended): every record of a supported shape in the list
returned by `GetRecords` or `AppendRecords` has its name converted from
the fully-qualified form to the zone-relative form (`RelativeName`)
before the operation returns; a record that parses to no supported
shape (an unknown type such as CAA, or malformed data) is returned with
its name unchanged, as the counterexample shows. -/
theorem c7_returned_names_unqualified :
    (∀ (zone : String) (records : List LRecord) (v : Vendor)
        (l : List LRecord),
      (AppendRecords zone records v).result = .ok l →
      l = (groupedRecords (records.map (fun r => qualityRecordNames r zone))).map
        (fun q => unqualifyRecordNames q zone)) ∧
    (∀ (zone : String) (v : Vendor) (l : List LRecord),
      GetRecords zone v = .ok l →
      ∃ raw, GetRecordsRaw v = .ok raw ∧
        l = raw.map (fun rr => unqualifyRecordNames (parseRR rr) zone)) ∧
    (∀ (zone : String) (q : LRecord), q.isSupported = true →
      (unqualifyRecordNames q zone).nameField = RelativeName q.nameField zone) ∧
    (∀ (zone : String) (q : LRecord), q.isSupported = false →
      unqualifyRecordNames q zone = q) := by
  refine ⟨?_, ?_, ?_, ?_⟩
  · intro zone records v l h
    have h' : (Except.map
        (fun added => added.map (fun x => unqualifyRecordNames x zone))
        (appendLoop (groupedRecords
          (records.map (fun r => qualityRecordNames r zone))) [] v []).result)
        = .ok l := h
    obtain ⟨a, ha, hl⟩ := (except_map_eq_ok _ _ _).mp h'
    rcases hrun : appendLoop (groupedRecords
        (records.map (fun r => qualityRecordNames r zone))) [] v []
      with ⟨res, vv, tt⟩
    rw [hrun] at ha
    have ha' : res = .ok a := ha
    have hout : a = [] ++ groupedRecords
        (records.map (fun r => qualityRecordNames r zone)) :=
      appendLoop_ok_out _ _ _ _ a vv tt (by rw [hrun, ha'])
    rw [hl, hout]
    simp
  · intro zone v l h
    exact (except_map_eq_ok _ _ _).mp h |>.imp
      (fun raw ⟨h1, h2⟩ => ⟨h1, h2⟩)
  · intro zone q hs
    cases q <;> first
      | rfl
      | simp [LRecord.isSupported] at hs
  · intro zone q hs
    cases q <;> first
      | rfl
      | simp [LRecord.isSupported] at hs

/-- Counterexample to C7 as stated: a CAA entry comes back from
`GetRecords` with its fully-qualified name `caa.example.com.` intact,
not the zone-relative `caa`. -/
theorem c7_counterexample :
    GetRecords "example.com."
        ⟨[(("caa.example.com.", "CAA"), ⟨"CAA", 300, [⟨["0 issue x"], true⟩]⟩)],
          [⟨"caa.example.com.", "CAA", 300⟩], none, fun _ _ => none,
          fun _ _ => none, fun _ _ _ => none⟩
      = .ok [.other "caa.example.com." "CAA" 300 "0 issue x"] ∧
    RelativeName "caa.example.com." "example.com." = "caa" ∧
    (LRecord.other "caa.example.com." "CAA" 300 "0 issue x").nameField
      ≠ "caa" := by
  refine ⟨by rfl, by rfl, by decide⟩

/-- Witness for C7: concrete successful Append and Get runs, plus the
relativisation facts at concrete records. -/
theorem c7_witness :
    ([unqualifyRecordNames
        (qualityRecordNames (.txt "www" 300 "v") "example.com.") "example.com."]
      = (groupedRecords ([LRecord.txt "www" 300 "v"].map
          (fun r => qualityRecordNames r "example.com."))).map
        (fun q => unqualifyRecordNames q "example.com.")) ∧
    (∃ raw, GetRecordsRaw
        ⟨[(("www.example.com.", "TXT"), ⟨"TXT", 300, [⟨["v"], true⟩]⟩)],
          [⟨"www.example.com.", "TXT", 300⟩], none, fun _ _ => none,
          fun _ _ => none, fun _ _ _ => none⟩ = .ok raw ∧
      [LRecord.txt "www" 300 "v"]
        = raw.map (fun rr => unqualifyRecordNames (parseRR rr) "example.com.")) ∧
    ((unqualifyRecordNames (.txt "www.example.com." 300 "v")
        "example.com.").nameField
      = RelativeName "www.example.com." "example.com.") ∧
    (unqualifyRecordNames (.other "x.example.com." "CAA" 300 "d") "example.com."
      = .other "x.example.com." "CAA" 300 "d") :=
  ⟨c7_returned_names_unqualified.1 "example.com." [.txt "www" 300 "v"]
      ⟨[], [], none, fun _ _ => none, fun _ _ => none, fun _ _ _ => none⟩
      _ (by rfl),
   c7_returned_names_unqualified.2.1 "example.com."
      ⟨[(("www.example.com.", "TXT"), ⟨"TXT", 300, [⟨["v"], true⟩]⟩)],
        [⟨"www.example.com.", "TXT", 300⟩], none, fun _ _ => none,
        fun _ _ => none, fun _ _ _ => none⟩ _ (by rfl),
   c7_returned_names_unqualified.2.2.1 "example.com."
      (.txt "www.example.com." 300 "v") rfl,
   c7_returned_names_unqualified.2.2.2 "example.com."
      (.other "x.example.com." "CAA" 300 "d") rfl⟩

/-- Witness for C2 at concrete inputs, one per supported shape. -/
theorem c2_witness :
    unqualifyRecordNames (qualityRecordNames
      (.address "www" 300 "1.2.3.4" true) "example.com.") "example.com."
      = .address "www" 300 "1.2.3.4" true ∧
    unqualifyRecordNames (qualityRecordNames
      (.cname "alias" 300 "www.example.com.") "example.com.") "example.com."
      = .cname "alias" 300 "www.example.com." ∧
    unqualifyRecordNames (qualityRecordNames
      (.txt "@" 60 "hello world") "example.com.") "example.com."
      = .txt "@" 60 "hello world" ∧
    unqualifyRecordNames (qualityRecordNames
      (.mx "@" 3600 10 "mail.example.com.") "example.com.") "example.com."
      = .mx "@" 3600 10 "mail.example.com." ∧
    unqualifyRecordNames (qualityRecordNames
      (.ns "sub" 3600 "ns1.example.com.") "example.com.") "example.com."
      = .ns "sub" 3600 "ns1.example.com." ∧
    unqualifyRecordNames (qualityRecordNames
      (.srv "www" 120 "sip" "tcp" 10 5 5060 "sipserver.example.com.")
        "example.com.") "example.com."
      = .srv "www" 120 "sip" "tcp" 10 5 5060 "sipserver.example.com." :=
  ⟨c2_qualify_unqualify_roundtrip _ _ (by decide) (by decide) (by decide),
   c2_qualify_unqualify_roundtrip _ _ (by decide) (by decide) (by decide),
   c2_qualify_unqualify_roundtrip _ _ (by decide) (by decide) (by decide),
   c2_qualify_unqualify_roundtrip _ _ (by decide) (by decide) (by decide),
   c2_qualify_unqualify_roundtrip _ _ (by decide) (by decide) (by decide),
   c2_qualify_unqualify_roundtrip _ _ (by decide) (by decide) (by decide)⟩

/-- **C8**: whenever the vendor's single-value delete call fails for a
record — in particular when the targeted record does not exist —
`DeleteRecords` aborts the remainder of the batch and returns an error
naming the failing record. -/
theorem c8_delete_failure_aborts_and_names_record :
    (∀ (zone : String) (r : LRecord) (rest : List LRecord) (v : Vendor)
        (q : LRecord) (m : String),
      q = qualityRecordNames r zone →
      (v.deleteRRSetRecord q.rrName q.rrType q.rrData).1 = some m →
      (DeleteRecords zone (r :: rest) v).result
          = .error ("failed to delete record " ++ recordRepr q) ∧
      (DeleteRecords zone (r :: rest) v).trace
          = [VCall.deleteRec q.rrName q.rrType q.rrData]) ∧
    (∀ (v : Vendor) (name ty value : String),
      v.deleteFault name ty value = none →
      lookupSets v.sets name ty = none →
      (v.deleteRRSetRecord name ty value).1 = some notFoundMsg) ∧
    (∀ (v : Vendor) (name ty value : String) (s : RRSet),
      v.deleteFault name ty value = none →
      lookupSets v.sets name ty = some s →
      (∀ rr ∈ s.records, rr.contentToString ≠ value) →
      (v.deleteRRSetRecord name ty value).1 = some notFoundMsg) := by
  refine ⟨?_, ?_, ?_⟩
  · intro zone r rest v q m hq hfail
    rcases hd : v.deleteRRSetRecord q.rrName q.rrType q.rrData with ⟨o, v₁⟩
    rw [hd] at hfail
    simp only at hfail
    subst hfail
    unfold DeleteRecords
    dsimp only
    rw [show (r :: rest).map (fun x => qualityRecordNames x zone)
        = q :: rest.map (fun x => qualityRecordNames x zone) from by
      rw [List.map_cons, hq]]
    rw [show deleteLoop (q :: rest.map (fun x => qualityRecordNames x zone)) [] v []
        = ⟨.error ("failed to delete record " ++ recordRepr q), v₁,
            [VCall.deleteRec q.rrName q.rrType q.rrData]⟩ from by
      simp [deleteLoop, hd]]
    exact ⟨rfl, rfl⟩
  · intro v name ty value hfault hlook
    unfold Vendor.deleteRRSetRecord
    rw [hfault, hlook]
  · intro v name ty value s hfault hlook hnone
    have hany : s.records.any (fun rr => rr.contentToString = value) = false := by
      rw [List.any_eq_false]
      intro rr hrr
      simpa using hnone rr hrr
    unfold Vendor.deleteRRSetRecord
    rw [hfault, hlook]
    simp [hany]

/-- Witness for C8: deleting a record that does not exist (empty
vendor) aborts the two-record batch with an error naming the record. -/
theorem c8_witness :
    ((DeleteRecords "example.com." [.txt "www" 300 "v", .txt "other" 60 "w"]
        ⟨[], [], none, fun _ _ => none, fun _ _ => none,
          fun _ _ _ => none⟩).result
      = .error ("failed to delete record "
          ++ recordRepr (qualityRecordNames (.txt "www" 300 "v") "example.com."))) ∧
    ((Vendor.deleteRRSetRecord
        ⟨[], [], none, fun _ _ => none, fun _ _ => none, fun _ _ _ => none⟩
        "www.example.com." "TXT" "v").1 = some notFoundMsg) ∧
    ((Vendor.deleteRRSetRecord
        ⟨[(("www.example.com.", "TXT"), ⟨"TXT", 300, [⟨["a"], true⟩]⟩)], [],
          none, fun _ _ => none, fun _ _ => none, fun _ _ _ => none⟩
        "www.example.com." "TXT" "v").1 = some notFoundMsg) := by
  refine ⟨?_, ?_, ?_⟩
  · exact (c8_delete_failure_aborts_and_names_record.1 "example.com."
      (.txt "www" 300 "v") [.txt "other" 60 "w"]
      ⟨[], [], none, fun _ _ => none, fun _ _ => none, fun _ _ _ => none⟩
      (qualityRecordNames (.txt "www" 300 "v") "example.com.") notFoundMsg
      rfl (by rfl)).1
  · exact c8_delete_failure_aborts_and_names_record.2.1
      ⟨[], [], none, fun _ _ => none, fun _ _ => none, fun _ _ _ => none⟩
      "www.example.com." "TXT" "v" rfl rfl
  · exact c8_delete_failure_aborts_and_names_record.2.2
      ⟨[(("www.example.com.", "TXT"), ⟨"TXT", 300, [⟨["a"], true⟩]⟩)], [],
        none, fun _ _ => none, fun _ _ => none, fun _ _ _ => none⟩
      "www.example.com." "TXT" "v" ⟨"TXT", 300, [⟨["a"], true⟩]⟩
      rfl rfl (by decide)

/-- **C9**: when a record of a batch fails mid-operation, the operation
stops processing the remaining records: the failing run coincides with
running the already-processed prefix and then the failing record alone
— so the vendor state and call trace visible to the caller are exactly
those of the records processed before the first failing call. -/
theorem c9_first_failure_stops_the_batch :
    (∀ (zone : String) (records : List LRecord) (v : Vendor) (m : String),
      (DeleteRecords zone records v).result = .error m →
      ∃ A x B accA vA trA,
        records.map (fun r => qualityRecordNames r zone) = A ++ x :: B ∧
        deleteLoop A [] v [] = ⟨.ok accA, vA, trA⟩ ∧ accA = A ∧
        (deleteLoop [x] accA vA trA).result = .error m ∧
        (DeleteRecords zone records v).vendor = (deleteLoop [x] accA vA trA).vendor ∧
        (DeleteRecords zone records v).trace = (deleteLoop [x] accA vA trA).trace) ∧
    (∀ (zone : String) (records : List LRecord) (v : Vendor) (m : String),
      (SetRecords zone records v).result = .error m →
      ∃ A x B accA vA trA,
        records.map (fun r => qualityRecordNames r zone) = A ++ x :: B ∧
        setLoop A [] v [] = ⟨.ok accA, vA, trA⟩ ∧ accA = A ∧
        (setLoop [x] accA vA trA).result = .error m ∧
        (SetRecords zone records v).vendor = (setLoop [x] accA vA trA).vendor ∧
        (SetRecords zone records v).trace = (setLoop [x] accA vA trA).trace) ∧
    (∀ (zone : String) (records : List LRecord) (v : Vendor) (m : String),
      (AppendRecords zone records v).result = .error m →
      ∃ A x B accA vA trA,
        groupedRecords (records.map (fun r => qualityRecordNames r zone))
          = A ++ x :: B ∧
        appendLoop A [] v [] = ⟨.ok accA, vA, trA⟩ ∧ accA = A ∧
        (appendLoop [x] accA vA trA).result = .error m ∧
        (AppendRecords zone records v).vendor = (appendLoop [x] accA vA trA).vendor ∧
        (AppendRecords zone records v).trace = (appendLoop [x] accA vA trA).trace) := by
  refine ⟨?_, ?_, ?_⟩
  · intro zone records v m h
    have h' : (deleteLoop (records.map (fun r => qualityRecordNames r zone))
        [] v []).result = .error m := (except_map_eq_error _ _ _).mp h
    obtain ⟨A, x, B, accA, vA, trA, hAB, hok, hacc, heq, herr⟩ :=
      deleteLoop_error_decomp _ _ _ _ _ h'
    refine ⟨A, x, B, accA, vA, trA, hAB, hok, by simpa using hacc, herr, ?_, ?_⟩
    · show (deleteLoop (records.map (fun r => qualityRecordNames r zone))
        [] v []).vendor = _
      rw [heq]
    · show (deleteLoop (records.map (fun r => qualityRecordNames r zone))
        [] v []).trace = _
      rw [heq]
  · intro zone records v m h
    have h' : (setLoop (records.map (fun r => qualityRecordNames r zone))
        [] v []).result = .error m := (except_map_eq_error _ _ _).mp h
    obtain ⟨A, x, B, accA, vA, trA, hAB, hok, hacc, heq, herr⟩ :=
      setLoop_error_decomp _ _ _ _ _ h'
    refine ⟨A, x, B, accA, vA, trA, hAB, hok, by simpa using hacc, herr, ?_, ?_⟩
    · show (setLoop (records.map (fun r => qualityRecordNames r zone))
        [] v []).vendor = _
      rw [heq]
    · show (setLoop (records.map (fun r => qualityRecordNames r zone))
        [] v []).trace = _
      rw [heq]
  · intro zone records v m h
    have h' : (appendLoop (groupedRecords
        (records.map (fun r => qualityRecordNames r zone))) [] v []).result
        = .error m := (except_map_eq_error _ _ _).mp h
    obtain ⟨A, x, B, accA, vA, trA, hAB, hok, hacc, heq, herr⟩ :=
      appendLoop_error_decomp _ _ _ _ _ h'
    refine ⟨A, x, B, accA, vA, trA, hAB, hok, by simpa using hacc, herr, ?_, ?_⟩
    · show (appendLoop (groupedRecords
        (records.map (fun r => qualityRecordNames r zone))) [] v []).vendor = _
      rw [heq]
    · show (appendLoop (groupedRecords
        (records.map (fun r => qualityRecordNames r zone))) [] v []).trace = _
      rw [heq]

/-- Witness for C9: a two-record delete batch whose second record does
not exist stops after the failing call. -/
theorem c9_witness :
    ∃ A x B accA vA trA,
      ([LRecord.txt "www" 300 "v", LRecord.txt "gone" 60 "w"].map
          (fun r => qualityRecordNames r "example.com.")) = A ++ x :: B ∧
      deleteLoop A []
          ⟨[(("www.example.com.", "TXT"), ⟨"TXT", 300, [⟨["v"], true⟩]⟩)], [],
            none, fun _ _ => none, fun _ _ => none, fun _ _ _ => none⟩ []
        = ⟨.ok accA, vA, trA⟩ ∧ accA = A ∧
      (deleteLoop [x] accA vA trA).result
        = .error ("failed to delete record "
            ++ recordRepr (qualityRecordNames (.txt "gone" 60 "w") "example.com.")) ∧
      (DeleteRecords "example.com."
          [LRecord.txt "www" 300 "v", LRecord.txt "gone" 60 "w"]
          ⟨[(("www.example.com.", "TXT"), ⟨"TXT", 300, [⟨["v"], true⟩]⟩)], [],
            none, fun _ _ => none, fun _ _ => none,
            fun _ _ _ => none⟩).vendor = (deleteLoop [x] accA vA trA).vendor ∧
      (DeleteRecords "example.com."
          [LRecord.txt "www" 300 "v", LRecord.txt "gone" 60 "w"]
          ⟨[(("www.example.com.", "TXT"), ⟨"TXT", 300, [⟨["v"], true⟩]⟩)], [],
            none, fun _ _ => none, fun _ _ => none,
            fun _ _ _ => none⟩).trace = (deleteLoop [x] accA vA trA).trace :=
  c9_first_failure_stops_the_batch.1 "example.com."
    [LRecord.txt "www" 300 "v", LRecord.txt "gone" 60 "w"]
    ⟨[(("www.example.com.", "TXT"), ⟨"TXT", 300, [⟨["v"], true⟩]⟩)], [],
      none, fun _ _ => none, fun _ _ => none, fun _ _ _ => none⟩
    ("failed to delete record "
      ++ recordRepr (qualityRecordNames (.txt "gone" 60 "w") "example.com."))
    (by rfl)

/-- **C10**: `AppendRecords`, `SetRecords` and `DeleteRecords` overwrite
the caller's input slice in place, replacing each element with its
name-qualified form before any vendor call is issued, so the caller's
slice holds the qualified records afterwards even when the operation
returns an error. -/
theorem c10_input_slice_overwritten_in_place :
    ∀ (zone : String) (records : List LRecord) (v : Vendor),
      (AppendRecords zone records v).callerSlice
          = records.map (fun r => qualityRecordNames r zone) ∧
      (SetRecords zone records v).callerSlice
          = records.map (fun r => qualityRecordNames r zone) ∧
      (DeleteRecords zone records v).callerSlice
          = records.map (fun r => qualityRecordNames r zone) ∧
      (∀ m, (AppendRecords zone records v).result = .error m →
        (AppendRecords zone records v).callerSlice
          = records.map (fun r => qualityRecordNames r zone)) ∧
      (∀ m, (SetRecords zone records v).result = .error m →
        (SetRecords zone records v).callerSlice
          = records.map (fun r => qualityRecordNames r zone)) ∧
      (∀ m, (DeleteRecords zone records v).result = .error m →
        (DeleteRecords zone records v).callerSlice
          = records.map (fun r => qualityRecordNames r zone)) :=
  fun _ _ _ =>
    ⟨rfl, rfl, rfl, fun _ _ => rfl, fun _ _ => rfl, fun _ _ => rfl⟩

/-- Witness for C10: a delete batch that fails (record absent) still
leaves the caller's slice qualified. -/
theorem c10_witness :
    (DeleteRecords "example.com." [.txt "www" 300 "v"]
        ⟨[], [], none, fun _ _ => none, fun _ _ => none,
          fun _ _ _ => none⟩).callerSlice
      = [LRecord.txt "www" 300 "v"].map
          (fun r => qualityRecordNames r "example.com.") :=
  (c10_input_slice_overwritten_in_place "example.com." [.txt "www" 300 "v"]
    ⟨[], [], none, fun _ _ => none, fun _ _ => none,
      fun _ _ _ => none⟩).2.2.2.2.2
    ("failed to delete record "
      ++ recordRepr (qualityRecordNames (.txt "www" 300 "v") "example.com."))
    (by rfl)

end GcoreSpec
